import Mathlib

/-!
Shallow embedding of the grouping / ordering / alignment core of the
nwb-jupyter-widgets repository (`nwbwidgets/misc.py` and the helper modules
it imports), together with proofs of the spec's testable properties.

Scalar cell values (group keys, order keys, timestamps) are modelled as
rationals; a missing value (float NaN in the source) is `Option.none`.
Row indices are naturals.
-/

namespace Nwb

/-- Result triple of the group-and-sort engine: display order (original row
indices), per-row group index, and the group label sequence.  `group_inds`
and `labels` are `none` when no grouping was requested. -/
structure GSResult where
  order : List ℕ
  group_inds : Option (List ℕ)
  labels : Option (List ℚ)
deriving DecidableEq

/-- Lexicographic comparison on (group key, order key, original index):
the sort key of the engine, with ties broken by ascending original index. -/
def keyLe (a b : ℚ × ℚ × ℕ) : Bool :=
  a.1 < b.1 || (a.1 = b.1 && (a.2.1 < b.2.1 || (a.2.1 = b.2.1 && a.2.2 ≤ b.2.2)))

/-- Insert `x` into a list sorted by `le`, keeping it sorted. -/
def insertLe (le : ℕ → ℕ → Bool) (x : ℕ) : List ℕ → List ℕ
  | [] => [x]
  | y :: ys => if le x y then x :: y :: ys else y :: insertLe le x ys

/-- Insertion sort by `le`. -/
def sortLe (le : ℕ → ℕ → Bool) : List ℕ → List ℕ
  | [] => []
  | x :: xs => insertLe le x (sortLe le xs)

/-- Modelled from the spec: `utils/dynamictable.py` (not under src) — the
per-group cap of step 4 of the group-and-sort algorithm.  Walks the sorted
row list and keeps a row only while fewer than `k` rows of its group value
(under `g`) have already been kept; `cnt` carries the per-value counts. -/
def limitG (g : ℕ → ℚ) (k : ℕ) : List ℕ → (ℚ → ℕ) → List ℕ
  | [], _ => []
  | i :: rest, cnt =>
      if cnt (g i) < k then
        i :: limitG g k rest (fun v => if v = g i then cnt v + 1 else cnt v)
      else
        limitG g k rest cnt

/-- Distinct values in first-appearance order (step 6's label derivation). -/
def uniqueInOrder : List ℚ → List ℚ
  | [] => []
  | a :: l => a :: (uniqueInOrder l).filter (fun x => x ≠ a)

/-- Group value of row `i`, with rows carrying no group mapped to `none`. -/
def gOf (group_vals : Option (List (Option ℚ))) (i : ℕ) : Option ℚ :=
  match group_vals with
  | none => none
  | some gs => gs.getD i none

/-- Order value of row `i` (0 when no order column was requested). -/
def oOf (order_vals : Option (List ℚ)) (i : ℕ) : ℚ :=
  match order_vals with
  | none => 0
  | some os => os.getD i 0

/-- Group value of row `i` as a plain key (0 never hit on retained rows). -/
def gKey (group_vals : Option (List (Option ℚ))) (i : ℕ) : ℚ :=
  (gOf group_vals i).getD 0

/-- Number of conceptual rows: the common length of the value arrays. -/
def gsRowCount (group_vals : Option (List (Option ℚ)))
    (order_vals : Option (List ℚ)) : ℕ :=
  match group_vals, order_vals with
  | some gs, _ => gs.length
  | none, some os => os.length
  | none, none => 0

/-- The eligible rows: all rows, except that rows with a missing (NaN)
group value are excluded when grouping is requested. -/
def eligibleRows (group_vals : Option (List (Option ℚ)))
    (order_vals : Option (List ℚ)) : List ℕ :=
  match group_vals with
  | none => List.range (gsRowCount group_vals order_vals)
  | some _ =>
      (List.range (gsRowCount group_vals order_vals)).filter
        (fun i => (gOf group_vals i).isSome)

/-- Modelled from the spec: `utils/dynamictable.py` (not under src) — steps
2–3 of the algorithm: the eligible rows, stably sorted by the lexicographic
(group value, order value) key with ties broken by original index. -/
def sortedRows (group_vals : Option (List (Option ℚ)))
    (order_vals : Option (List ℚ)) : List ℕ :=
  sortLe (fun i j =>
      keyLe (gKey group_vals i, oOf order_vals i, i)
            (gKey group_vals j, oOf order_vals j, j))
    (eligibleRows group_vals order_vals)

/-- Modelled from the spec: `utils/dynamictable.py` is not under src; this
follows §4.2's algorithm.  `group_and_sort(group_vals, order_vals, window,
limit)`: sort the eligible rows by (group value, order value) with ties by
original index, cap each group at `limit` rows, slice by `window`, and
derive `labels` (distinct group values in first-appearance order post-sort)
and `group_inds` (per retained row, the index of its group value in
`labels`).  `limit = none` and `window = none` mean unlimited / no slice. -/
def group_and_sort (group_vals : Option (List (Option ℚ)))
    (order_vals : Option (List ℚ)) (window : Option (ℕ × ℕ))
    (limit : Option ℕ) : GSResult :=
  match group_vals, order_vals with
  | none, none =>
      { order :=
          match window with
          | none => []
          | some w => List.range' w.1 (w.2 - w.1)
        group_inds := none, labels := none }
  | _, _ =>
      let sorted := sortedRows group_vals order_vals
      let limited :=
        match limit with
        | none => sorted
        | some k => limitG (gKey group_vals) k sorted (fun _ => 0)
      let order :=
        match window with
        | none => limited
        | some w => (limited.drop w.1).take (w.2 - w.1)
      match group_vals with
      | none => { order := order, group_inds := none, labels := none }
      | some _ =>
          let labels := uniqueInOrder (order.map (gKey group_vals))
          { order := order
            group_inds := some (order.map (fun i => labels.indexOf (gKey group_vals i)))
            labels := some labels }

/-! ## Temporal alignment (`utils/units.py` is not under src) -/

/-- A table of named columns of scalar (rational) values, e.g. a trial /
interval table or an electrode table. -/
structure ColTable where
  cols : List (String × List ℚ)
deriving DecidableEq

/-- Column lookup by name (first match; `[]` when the name is absent). -/
def lookupCol : List (String × List ℚ) → String → List ℚ
  | [], _ => []
  | c :: rest, name => if c.1 = name then c.2 else lookupCol rest name

/-- Column access on a table (the source's `table[name]`). -/
def getCol (t : ColTable) (name : String) : List ℚ :=
  lookupCol t.cols name

/-- Whether `name` names a column of `t` (the source's `name in table`). -/
def hasCol (t : ColTable) (name : String) : Bool :=
  t.cols.any (fun c => c.1 = name)

/-- Number of rows of the table (length of its first column). -/
def rowCount (t : ColTable) : ℕ :=
  match t.cols with
  | [] => 0
  | c :: _ => c.2.length

/-- Modelled from the spec: `get_spike_times` of `utils/units.py` (not under
src) — the spike timestamps of unit `unit_index` within `time_window`. -/
def get_spike_times (units : List (List ℚ)) (unit_index : ℕ)
    (time_window : ℚ × ℚ) : List ℚ :=
  (units.getD unit_index []).filter
    (fun t => time_window.1 ≤ t ∧ t ≤ time_window.2)

/-- Modelled from the spec: `align_by_time_intervals` of `utils/units.py`
(not under src), Contract A of §4.3.  For each row of `row_order` (in
sequence), the anchor is `intervals_table[start_label][row]`; the spikes of
unit `unit_index` with timestamp in `[anchor - before, anchor + after]` are
selected and shifted by `-anchor`.  (The source's `end_label` argument is
passed equal to `start_label` at every call site in `misc.py` and plays no
role in the spec's contract, so it is not modelled.) -/
def align_by_time_intervals (units : List (List ℚ)) (unit_index : ℕ)
    (intervals_table : ColTable) (start_label : String) (before after : ℚ)
    (row_order : List ℕ) : List (List ℚ) :=
  row_order.map (fun row =>
    let anchor := (getCol intervals_table start_label).getD row 0
    (((units.getD unit_index []).filter
        (fun t => anchor - before ≤ t ∧ t ≤ anchor + after)).map
      (fun t => t - anchor)))

/-! ## Data model of `misc.py` callers -/

/-- A units table: per-row spike-timestamp sequence plus named scalar
columns (e.g. `peak_channel_id`). -/
structure UnitsTable where
  spike_times : List (List ℚ)
  cols : List (String × List ℚ)
deriving DecidableEq

/-- An electrode table: its `id` column plus named scalar columns. -/
structure ElectrodesTable where
  ids : List ℚ
  cols : List (String × List ℚ)
deriving DecidableEq

/-- Modelled from the spec: `get_min_spike_time` of `utils/units.py` (not
under src) — the smallest spike timestamp over all units. -/
def get_min_spike_time (units : UnitsTable) : ℚ :=
  (units.spike_times.flatten.min?).getD 0

/-- Modelled from the spec: `get_max_spike_time` of `utils/units.py` (not
under src) — the largest spike timestamp over all units. -/
def get_max_spike_time (units : UnitsTable) : ℚ :=
  (units.spike_times.flatten.max?).getD 0

/-- `np.argmax(ids == val)`: index of the first entry of `ids` equal to
`val`, and 0 when no entry matches (argmax of an all-false array). -/
def argmaxEq (ids : List ℚ) (v : ℚ) : ℕ :=
  if ids.indexOf v < ids.length then ids.indexOf v else 0

/-- `electrodes[col][:][inds]` with `inds` the per-unit electrode row of
each `peak_channel_id` (lines 72–74 / 79–81 of `misc.py`). -/
def electrodeVals (units : UnitsTable) (el : ElectrodesTable)
    (col : String) : List ℚ :=
  ((lookupCol units.cols "peak_channel_id").map (argmaxEq el.ids)).map
    (fun j => (lookupCol el.cols col).getD j 0)

/-- Index an array of values by an index list (`vals[sel]`). -/
def selectVals (vals : List ℚ) (sel : List ℕ) : List ℚ :=
  sel.map (fun i => vals.getD i 0)

/-- What the session-raster figure is built from: the computed row order,
group assignment, labels, the per-row spike data, and the y offset. -/
structure SessionRasterFig where
  order : List ℕ
  group_inds : Option (List ℕ)
  labels : Option (List ℚ)
  data : List (List ℚ)
  offset : ℕ
deriving DecidableEq

/-- `show_session_raster` of `misc.py` (lines 31–100).  `group_vals` is
assigned `None` when `group_by is None`, the units column when `group_by in
units`, the electrode-derived values when `electrodes` has the column — and
is never assigned otherwise, which raises at line 83; that unassigned state
is the outer `none` and yields `Except.error`.  `order_vals` likewise, but
with no units-column branch (lines 76–81).  With both values `None` the
order is `np.arange(units_window[0], units_window[1])` and grouping output
is `None` (line 84); otherwise `group_and_sort` computes it (lines 86–87).
Spike data is collected per row of `units_select[order]` (line 89). -/
def show_session_raster (units : UnitsTable) (time_window : Option (ℚ × ℚ))
    (units_select : Option (List ℕ)) (units_window : Option (ℕ × ℕ))
    (group_by : Option String) (order_by : Option String)
    (limit : Option ℕ) (electrodes : Option ElectrodesTable) :
    Except String SessionRasterFig :=
  let tw := time_window.getD (get_min_spike_time units, get_max_spike_time units)
  let uw := units_window.getD (0, units.spike_times.length)
  let us := units_select.getD (List.range units.spike_times.length)
  let group_vals : Option (Option (List ℚ)) :=
    match group_by with
    | none => some none
    | some g =>
        if hasCol ⟨units.cols⟩ g then
          some (some (selectVals (lookupCol units.cols g) us))
        else
          match electrodes with
          | some el =>
              if hasCol ⟨el.cols⟩ g then
                some (some (selectVals (electrodeVals units el g) us))
              else none
          | none => none
  let order_vals : Option (Option (List ℚ)) :=
    match order_by with
    | none => some none
    | some o =>
        match electrodes with
        | some el =>
            if hasCol ⟨el.cols⟩ o then
              some (some (selectVals (electrodeVals units el o) us))
            else none
        | none => none
  match group_vals, order_vals with
  | some gv, some ov =>
      let res : GSResult :=
        match gv, ov with
        | none, none =>
            { order := List.range' uw.1 (uw.2 - uw.1),
              group_inds := none, labels := none }
        | _, _ =>
            group_and_sort (gv.map (fun l => l.map some)) ov (some uw) limit
      Except.ok
        { order := res.order
          group_inds := res.group_inds
          labels := res.labels
          data := res.order.map
            (fun i => get_spike_times units.spike_times (us.getD i 0) tw)
          offset := uw.1 }
  | _, _ =>
      Except.error "local variable referenced before assignment"

/-- What the PSTH figure is built from: the computed trial order and
grouping, the raster panel's aligned data and x window, and the smoothing
panel's input data (the window-inflated alignment) and displayed x
window. -/
structure PsthFig where
  order : List ℕ
  group_inds : Option (List ℕ)
  labels : Option (List ℚ)
  raster_data : List (List ℚ)
  raster_window : ℚ × ℚ
  smoothed_input : List (List ℚ)
  smoothed_xlim : ℚ × ℚ
deriving DecidableEq

/-- `trials_psth` of `misc.py` (lines 351–407).  Group/order values are the
trial column restricted to `trials_select`; with both `None` the order is
`np.arange(len(trials_select))` (line 386), otherwise `group_and_sort` with
no window and no limit (line 388).  The raster panel shows the alignment at
`(before, after)` over window `[-before, after]` (lines 390, 399 with
`show_psth_raster`'s `[-before, after]`); the smoothing panel receives the
alignment at `(before + 4·sigma, after + 4·sigma)` (lines 392–395) and its
display is clipped to `[-before, after]` (line 430). -/
def trials_psth (units : UnitsTable) (index : ℕ) (trials : ColTable)
    (start_label : String) (before after : ℚ) (order_by : Option String)
    (group_by : Option String) (trials_select : List ℕ)
    (sigma_in_secs : ℚ) : PsthFig :=
  let group_vals : Option (List ℚ) :=
    match group_by with
    | none => none
    | some g => some (selectVals (getCol trials g) trials_select)
  let order_vals : Option (List ℚ) :=
    match order_by with
    | none => none
    | some o => some (selectVals (getCol trials o) trials_select)
  let res : GSResult :=
    match group_vals, order_vals with
    | none, none =>
        { order := List.range trials_select.length,
          group_inds := none, labels := none }
    | _, _ =>
        group_and_sort (group_vals.map (fun l => l.map some)) order_vals
          none none
  let data := align_by_time_intervals units.spike_times index trials
    start_label before after res.order
  let expanded_data := align_by_time_intervals units.spike_times index trials
    start_label (before + sigma_in_secs * 4) (after + sigma_in_secs * 4)
    res.order
  { order := res.order
    group_inds := res.group_inds
    labels := res.labels
    raster_data := data
    raster_window := (-before, after)
    smoothed_input := expanded_data
    smoothed_xlim := (-before, after) }

/-! ## Smoothed firing-rate estimation and its group aggregation -/

/-- `np.linspace a b n`: `n` evenly spaced points from `a` to `b`,
endpoints included: point `j < n` is `a + j * (b - a) / (n - 1)`. -/
def linspace (a b : ℚ) (n : ℕ) : List ℚ :=
  (List.range n).map (fun j : ℕ => a + (j : ℚ) * (b - a) / ((n : ℚ) - 1))

/-- A Gaussian kernel of standard deviation `sigma` evaluated at `x`. -/
noncomputable def gaussKernel (sigma x : ℝ) : ℝ :=
  Real.exp (-(x ^ 2) / (2 * sigma ^ 2)) / (sigma * Real.sqrt (2 * Real.pi))

/-- Modelled from the spec: `compute_smoothed_firing_rate` of
`analysis/spikes.py` (not under src), Contract B of §4.3 — a Gaussian
kernel of standard deviation `sigma_in_secs` centered at each spike time,
summed at each point of `eval_points`. -/
noncomputable def compute_smoothed_firing_rate (spike_times : List ℚ)
    (eval_points : List ℚ) (sigma_in_secs : ℚ) : List ℝ :=
  eval_points.map (fun t : ℚ =>
    (spike_times.map (fun s : ℚ =>
      gaussKernel (sigma_in_secs : ℝ) ((t : ℝ) - (s : ℝ)))).sum)

/-- Arithmetic mean of a list of reals (0 for the empty list). -/
noncomputable def listMean (xs : List ℝ) : ℝ := xs.sum / xs.length

/-- `scipy.stats.sem`: sample standard deviation (`ddof = 1`) divided by
the square root of the sample size. -/
noncomputable def semVal (xs : List ℝ) : ℝ :=
  Real.sqrt ((xs.map (fun x => (x - listMean xs) ^ 2)).sum /
    ((xs.length : ℝ) - 1)) / Real.sqrt (xs.length : ℝ)

/-- The rows of `rows` whose position carries group index `g`
(`smoothed[group_inds == g]`). -/
def selectRows (ginds : List ℕ) (rows : List (List ℝ)) (g : ℕ) : List (List ℝ) :=
  ((ginds.zip rows).filter (fun p => p.1 = g)).map (fun p => p.2)

/-- Columnwise mean over the first `m` columns (`np.mean(sel, axis=0)`). -/
noncomputable def colMean (rows : List (List ℝ)) (m : ℕ) : List ℝ :=
  (List.range m).map (fun j => listMean (rows.map (fun r => r.getD j 0)))

/-- Columnwise standard error of the mean (`scipy.stats.sem(sel, axis=0)`). -/
noncomputable def colSem (rows : List (List ℝ)) (m : ℕ) : List ℝ :=
  (List.range m).map (fun j => semVal (rows.map (fun r => r.getD j 0)))

/-- One group's plotted statistics: mean curve and the band bounds. -/
structure GroupStats where
  mean : List ℝ
  lower : List ℝ
  upper : List ℝ

/-- What the smoothing panel draws: the shared evaluation grid, one
`GroupStats` per group, and the displayed x window. -/
structure SmoothPanel where
  tt : List ℚ
  stats : List GroupStats
  xlim : ℚ × ℚ

/-- Each data row smoothed on the shared grid
`np.linspace(min(all_data), max(all_data), ntt)` (lines 415–416). -/
noncomputable def smoothedCurves (data : List (List ℚ)) (sigma : ℚ)
    (ntt : ℕ) : List (List ℝ) :=
  data.map (fun x => compute_smoothed_firing_rate x
    (linspace ((data.flatten.min?).getD 0) ((data.flatten.max?).getD 0) ntt)
    sigma)

/-- The statistics plotted for group `g` (lines 421–426): columnwise mean
of the group's smoothed curves and the `mean ∓ 2·sem` band bounds. -/
noncomputable def psthStats (data : List (List ℚ)) (sigma : ℚ)
    (gi : List ℕ) (ntt g : ℕ) : GroupStats :=
  { mean := colMean (selectRows gi (smoothedCurves data sigma ntt) g) ntt
    lower := List.zipWith (fun mu er => mu - 2 * er)
      (colMean (selectRows gi (smoothedCurves data sigma ntt) g) ntt)
      (colSem (selectRows gi (smoothedCurves data sigma ntt) g) ntt)
    upper := List.zipWith (fun mu er => mu + 2 * er)
      (colMean (selectRows gi (smoothedCurves data sigma ntt) g) ntt)
      (colSem (selectRows gi (smoothedCurves data sigma ntt) g) ntt) }

/-- `show_psth_smoothed` of `misc.py` (lines 410–432).  Returns `none` when
there are no spikes at all (line 413's early return).  Otherwise the shared
grid is `np.linspace(min(all_data), max(all_data), ntt)` (line 415), each
row is smoothed on that grid (line 416), absent `group_inds` become all
zeros (line 419), and each group `g < len(np.unique(group_inds))` gets mean
and `mean ∓ 2·sem` curves (lines 421–426); the x view is `[-before, after]`
(line 430). -/
noncomputable def show_psth_smoothed (data : List (List ℚ)) (before after : ℚ)
    (group_inds : Option (List ℕ)) (sigma_in_secs : ℚ) (ntt : ℕ) :
    Option SmoothPanel :=
  if data.flatten.isEmpty then none
  else
    let ginds := group_inds.getD (List.replicate data.length 0)
    some
      { tt := linspace ((data.flatten.min?).getD 0)
          ((data.flatten.max?).getD 0) ntt
        stats := (List.range ginds.dedup.length).map
          (psthStats data sigma_in_secs ginds ntt)
        xlim := (-before, after) }

/-- The spec's formulation of the curves aggregated for group `g`: the
smoothed rate curves of exactly the rows whose group index is `g`, all
evaluated on the shared grid spanning the observed min/max spike time. -/
noncomputable def groupCurves (data : List (List ℚ)) (sigma : ℚ)
    (gi : List ℕ) (ntt g : ℕ) : List (List ℝ) :=
  ((List.range data.length).filter (fun i => gi.getD i 0 = g)).map
    (fun i => compute_smoothed_firing_rate (data.getD i [])
      (linspace ((data.flatten.min?).getD 0) ((data.flatten.max?).getD 0) ntt)
      sigma)

/-! ## Categorical-column inference (`utils/dynamictable.py` not under src) -/

/-- A column of a dynamic table as the inference sees it: its name, its
scalar values (`none` is a missing value / NaN), and whether its values are
themselves iterable sequences (nested arrays). -/
structure TableColumn where
  name : String
  data : List (Option ℚ)
  nested : Bool
deriving DecidableEq

/-- Distinct-value count of a column, ignoring missing values. -/
def distinctCount (data : List (Option ℚ)) : ℕ :=
  (uniqueInOrder (data.filterMap id)).length

/-- Modelled from the spec: `infer_categorical_columns` of
`utils/dynamictable.py` (not under src), §4.1 — keep a column unless its
values are iterable, it is the identity/index column (`id`), or its
distinct-value count equals 1 or the row count `n`. -/
def infer_categorical_columns (table : List TableColumn) (n : ℕ) :
    List TableColumn :=
  table.filter (fun c =>
    !c.nested && c.name ≠ "id" && distinctCount c.data ≠ 1 &&
      distinctCount c.data ≠ n)

/-! ## Raster grid -/

/-- One cell of the raster grid: the selected trial rows and their aligned
spike data. -/
structure RasterCell where
  trials_select : List ℕ
  data : List (List ℚ)
deriving DecidableEq

/-- What the raster-grid figure is built from: one cell per (row value,
column value) pair. -/
structure RasterGridFig where
  row_vals : List (Option ℚ)
  col_vals : List (Option ℚ)
  cells : List (List RasterCell)
deriving DecidableEq

/-- Insert into a sorted list of rationals. -/
def insertQ (x : ℚ) : List ℚ → List ℚ
  | [] => [x]
  | y :: ys => if x ≤ y then x :: y :: ys else y :: insertQ x ys

/-- Insertion sort on rationals. -/
def sortQ : List ℚ → List ℚ
  | [] => []
  | x :: xs => insertQ x (sortQ xs)

/-- `np.unique`: sorted distinct values. -/
def uniqueSorted (l : List ℚ) : List ℚ :=
  sortQ l.dedup

/-- The trial rows selected for one cell of the grid (lines 525–530):
all rows, restricted to those matching the cell's row/column values. -/
def cellSelect (ti : ColTable) (rows_label cols_label : Option String)
    (row col : Option ℚ) : List ℕ :=
  (List.range (rowCount ti)).filter (fun t =>
    (match row, rows_label with
     | some rv, some rl => decide ((getCol ti rl).getD t 0 = rv)
     | _, _ => true) &&
    (match col, cols_label with
     | some cv, some cl => decide ((getCol ti cl).getD t 0 = cv)
     | _, _ => true))

/-- `raster_grid` of `misc.py` (lines 487–545).  A `None` trials table is
rejected up front (lines 506–507) with no figure; otherwise the grid has
one row per distinct value of `rows_label` (a single unlabeled row when it
is `None`), one column per distinct value of `cols_label` likewise, and
each cell aligns the selected trials by `align_by`. -/
def raster_grid (units : UnitsTable) (time_intervals : Option ColTable)
    (index : ℕ) (before after : ℚ) (rows_label cols_label : Option String)
    (align_by : String) : Except String RasterGridFig :=
  match time_intervals with
  | none => Except.error "trials must exist (trials cannot be None)"
  | some ti =>
      let row_vals : List (Option ℚ) :=
        match rows_label with
        | none => [none]
        | some rl => (uniqueSorted (getCol ti rl)).map some
      let col_vals : List (Option ℚ) :=
        match cols_label with
        | none => [none]
        | some cl => (uniqueSorted (getCol ti cl)).map some
      Except.ok
        { row_vals := row_vals
          col_vals := col_vals
          cells := row_vals.map (fun row =>
            col_vals.map (fun col =>
              let sel := cellSelect ti rows_label cols_label row col
              { trials_select := sel
                data :=
                  if sel.length ≠ 0 then
                    align_by_time_intervals units.spike_times index ti
                      align_by before after sel
                  else [] })) }

/-! ## Theorems -/

/-- Sanity check: the spec's end-to-end example.  `group_vals=[1,0,1,0]`,
`order_vals=[3,1,2,0]` gives `order=[3,1,2,0]`, `labels=[0,1]`,
`group_inds=[0,0,1,1]`. -/
example :
    group_and_sort (some [some 1, some 0, some 1, some 0]) (some [3, 1, 2, 0])
      none none =
    { order := [3, 1, 2, 0], group_inds := some [0, 0, 1, 1],
      labels := some [0, 1] } := by decide

theorem limitG_sublist (g : ℕ → ℚ) (k : ℕ) :
    ∀ (l : List ℕ) (cnt : ℚ → ℕ), List.Sublist (limitG g k l cnt) l
  | [], _ => List.Sublist.refl []
  | i :: rest, cnt => by
      unfold limitG
      split
      · exact (limitG_sublist g k rest _).cons₂ i
      · exact (limitG_sublist g k rest cnt).cons i

theorem insertLe_perm (le : ℕ → ℕ → Bool) (x : ℕ) :
    ∀ l : List ℕ, List.Perm (insertLe le x l) (x :: l)
  | [] => List.Perm.refl _
  | y :: ys => by
      unfold insertLe
      split
      · exact List.Perm.refl _
      · exact ((insertLe_perm le x ys).cons y).trans (List.Perm.swap x y ys)

theorem sortLe_perm (le : ℕ → ℕ → Bool) :
    ∀ l : List ℕ, List.Perm (sortLe le l) l
  | [] => List.Perm.refl _
  | x :: xs => (insertLe_perm le x (sortLe le xs)).trans ((sortLe_perm le xs).cons x)

theorem mem_uniqueInOrder {x : ℚ} : ∀ {l : List ℚ}, x ∈ l → x ∈ uniqueInOrder l
  | a :: l, hx => by
      unfold uniqueInOrder
      rcases List.mem_cons.1 hx with h | h
      · exact h ▸ List.mem_cons_self _ _
      · by_cases hxa : x = a
        · exact hxa ▸ List.mem_cons_self _ _
        · exact List.mem_cons_of_mem _
            (List.mem_filter.2 ⟨mem_uniqueInOrder h, by simpa using hxa⟩)

theorem limitG_filter (g : ℕ → ℚ) (k : ℕ) (v : ℚ) :
    ∀ (l : List ℕ) (cnt : ℚ → ℕ),
      (limitG g k l cnt).filter (fun i => g i = v) =
        (l.filter (fun i => g i = v)).take (k - cnt v)
  | [], _ => by simp [limitG]
  | i :: rest, cnt => by
      unfold limitG
      by_cases hc : cnt (g i) < k
      · rw [if_pos hc]
        by_cases hgi : g i = v
        · rw [List.filter_cons_of_pos (by simp [hgi]),
            List.filter_cons_of_pos (by simp [hgi]),
            limitG_filter g k v rest (fun w => if w = g i then cnt w + 1 else cnt w)]
          have hcv : (if v = g i then cnt v + 1 else cnt v) = cnt v + 1 :=
            if_pos hgi.symm
          rw [hcv]
          have hvk : cnt v < k := by rw [← hgi]; exact hc
          rw [show k - cnt v = (k - cnt v - 1) + 1 by omega, List.take_succ_cons,
            show k - (cnt v + 1) = k - cnt v - 1 by omega]
        · rw [List.filter_cons_of_neg (by simp [hgi]),
            List.filter_cons_of_neg (by simp [hgi]),
            limitG_filter g k v rest (fun w => if w = g i then cnt w + 1 else cnt w)]
          have hcv : (if v = g i then cnt v + 1 else cnt v) = cnt v :=
            if_neg (fun hh => hgi hh.symm)
          rw [hcv]
      · rw [if_neg hc, limitG_filter g k v rest cnt]
        by_cases hgi : g i = v
        · have hz : k - cnt v = 0 := by rw [← hgi]; omega
          rw [hz]
          simp
        · rw [List.filter_cons_of_neg (by simp [hgi])]

/-- The rows retained by `group_and_sort` (grouping requested) form a
sublist of the per-group-capped sorted rows, which themselves are a
sublist of the sorted eligible rows. -/
theorem group_and_sort_order_eq (gs : List (Option ℚ)) (ov : Option (List ℚ))
    (w : Option (ℕ × ℕ)) (lim : Option ℕ) :
    (group_and_sort (some gs) ov w lim).order =
      (match w with
       | none =>
          match lim with
          | none => sortedRows (some gs) ov
          | some k => limitG (gKey (some gs)) k (sortedRows (some gs) ov) (fun _ => 0)
       | some wp =>
          ((match lim with
            | none => sortedRows (some gs) ov
            | some k =>
                limitG (gKey (some gs)) k (sortedRows (some gs) ov)
                  (fun _ => 0)).drop wp.1).take (wp.2 - wp.1)) := by
  cases w <;> cases lim <;> rfl

theorem group_and_sort_order_mem (gs : List (Option ℚ)) (ov : Option (List ℚ))
    (w : Option (ℕ × ℕ)) (lim : Option ℕ) {j : ℕ}
    (hj : j ∈ (group_and_sort (some gs) ov w lim).order) :
    (gs.getD j none).isSome := by
  rw [group_and_sort_order_eq] at hj
  have hsorted : j ∈ sortedRows (some gs) ov := by
    have hlim : ∀ k, j ∈ limitG (gKey (some gs)) k (sortedRows (some gs) ov)
        (fun _ => 0) → j ∈ sortedRows (some gs) ov :=
      fun k h => (limitG_sublist _ k _ _).mem h
    cases w with
    | none =>
        cases lim with
        | none => exact hj
        | some k => exact hlim k hj
    | some wp =>
        cases lim with
        | none =>
            exact ((List.take_sublist _ _).trans (List.drop_sublist _ _)).mem hj
        | some k =>
            exact hlim k
              (((List.take_sublist _ _).trans (List.drop_sublist _ _)).mem hj)
  have helig : j ∈ eligibleRows (some gs) ov :=
    (sortLe_perm _ _).mem_iff.1 hsorted
  have := List.mem_filter.1 helig
  simpa [gOf] using this.2

/-- C1. With grouping requested, `group_and_sort` returns `group_inds` and
`labels` with `group_inds` as long as `order`, and for every index `i` into
the retained rows, `labels[group_inds[i]]` is the original group value
`group_vals[order[i]]`. -/
theorem c1_labels_reproduce_group_vals (gs : List (Option ℚ))
    (ov : Option (List ℚ)) (w : Option (ℕ × ℕ)) (lim : Option ℕ) (i : ℕ)
    (h : i < (group_and_sort (some gs) ov w lim).order.length) :
    ∃ gi ls,
      (group_and_sort (some gs) ov w lim).group_inds = some gi ∧
      (group_and_sort (some gs) ov w lim).labels = some ls ∧
      gi.length = (group_and_sort (some gs) ov w lim).order.length ∧
      gs.getD ((group_and_sort (some gs) ov w lim).order.getD i 0) none =
        some (ls.getD (gi.getD i 0) 0) := by
  set r := group_and_sort (some gs) ov w lim with hr
  have hgi : r.group_inds =
      some (r.order.map (fun j =>
        (uniqueInOrder (r.order.map (gKey (some gs)))).indexOf
          (gKey (some gs) j))) := by
    rw [hr]; cases w <;> cases lim <;> cases ov <;> rfl
  have hls : r.labels = some (uniqueInOrder (r.order.map (gKey (some gs)))) := by
    rw [hr]; cases w <;> cases lim <;> cases ov <;> rfl
  set ls := uniqueInOrder (r.order.map (gKey (some gs))) with hlsdef
  refine ⟨_, ls, hgi, hls, by simp, ?_⟩
  have hjmem : r.order[i] ∈ r.order := List.getElem_mem h
  have hjd : r.order.getD i 0 = r.order[i] := List.getD_eq_getElem _ _ h
  have hsome : (gs.getD r.order[i] none).isSome :=
    group_and_sort_order_mem gs ov w lim hjmem
  obtain ⟨v, hv⟩ := Option.isSome_iff_exists.1 hsome
  have hkey : gKey (some gs) r.order[i] = v := by
    have hv2 : gs[r.order[i]]?.getD none = some v := by
      simpa [List.getD] using hv
    simp [gKey, gOf, List.getD, hv2]
  have hmem : gKey (some gs) r.order[i] ∈ ls :=
    mem_uniqueInOrder (List.mem_map_of_mem _ hjmem)
  have hidx : ls.indexOf (gKey (some gs) r.order[i]) < ls.length :=
    List.indexOf_lt_length.2 hmem
  have hgd :
      (r.order.map (fun j => ls.indexOf (gKey (some gs) j))).getD i 0 =
        ls.indexOf (gKey (some gs) r.order[i]) := by
    rw [List.getD_eq_getElem _ _ (by simpa using h), List.getElem_map]
  rw [hjd, hgd, List.getD_eq_getElem _ _ hidx, List.getElem_indexOf hidx,
    hkey, hv]

/-- Closed instance of C1 at a concrete input. -/
theorem c1_labels_reproduce_group_vals_witness :
    ∃ gi ls,
      (group_and_sort (some [some 1, some 0, some 1, some 0])
        (some [3, 1, 2, 0]) none none).group_inds = some gi ∧
      (group_and_sort (some [some 1, some 0, some 1, some 0])
        (some [3, 1, 2, 0]) none none).labels = some ls ∧
      gi.length = (group_and_sort (some [some 1, some 0, some 1, some 0])
        (some [3, 1, 2, 0]) none none).order.length ∧
      [some (1 : ℚ), some 0, some 1, some 0].getD
        ((group_and_sort (some [some 1, some 0, some 1, some 0])
          (some [3, 1, 2, 0]) none none).order.getD 2 0) none =
        some (ls.getD (gi.getD 2 0) 0) :=
  c1_labels_reproduce_group_vals [some 1, some 0, some 1, some 0]
    (some [3, 1, 2, 0]) none none 2 (by decide)

/-- C4.  With `limit = k`, every distinct group value `v` has at most `k`
rows in the returned order; the retained rows of group `v` are among the
first `k` rows of that group in sorted order, and with no window they are
exactly those first `k`. -/
theorem c4_limit_caps_groups (gs : List (Option ℚ)) (ov : Option (List ℚ))
    (w : Option (ℕ × ℕ)) (k : ℕ) (v : ℚ) :
    (group_and_sort (some gs) ov w (some k)).order.countP
        (fun i => gKey (some gs) i = v) ≤ k ∧
    ((group_and_sort (some gs) ov w (some k)).order.filter
        (fun i => gKey (some gs) i = v)).Sublist
      (((sortedRows (some gs) ov).filter
        (fun i => gKey (some gs) i = v)).take k) ∧
    (w = none →
      (group_and_sort (some gs) ov w (some k)).order.filter
          (fun i => gKey (some gs) i = v) =
        ((sortedRows (some gs) ov).filter
          (fun i => gKey (some gs) i = v)).take k) := by
  have hlim :
      (limitG (gKey (some gs)) k (sortedRows (some gs) ov)
        (fun _ => 0)).filter (fun i => gKey (some gs) i = v) =
      ((sortedRows (some gs) ov).filter
        (fun i => gKey (some gs) i = v)).take k := by
    rw [limitG_filter, Nat.sub_zero]
  have hsub :
      ((group_and_sort (some gs) ov w (some k)).order.filter
        (fun i => gKey (some gs) i = v)).Sublist
      (((sortedRows (some gs) ov).filter
        (fun i => gKey (some gs) i = v)).take k) := by
    rw [group_and_sort_order_eq]
    cases w with
    | none => rw [hlim]
    | some wp =>
        rw [← hlim]
        refine List.Sublist.filter _ ?_
        exact (List.take_sublist _ _).trans (List.drop_sublist _ _)
  refine ⟨?_, hsub, ?_⟩
  · rw [List.countP_eq_length_filter]
    have htk :
        (((sortedRows (some gs) ov).filter
          (fun i => gKey (some gs) i = v)).take k).length ≤ k := by
      rw [List.length_take]
      exact min_le_left _ _
    exact le_trans hsub.length_le htk
  · intro hw
    subst hw
    rw [group_and_sort_order_eq, hlim]

/-- Closed instance of C4 at a concrete input. -/
theorem c4_limit_caps_groups_witness :
    (group_and_sort (some [some 1, some 0, some 1, some 0])
        (some [3, 1, 2, 0]) none (some 1)).order.countP
        (fun i => gKey (some [some 1, some 0, some 1, some 0]) i = 0) ≤ 1 ∧
    (group_and_sort (some [some 1, some 0, some 1, some 0])
        (some [3, 1, 2, 0]) none (some 1)).order.filter
        (fun i => gKey (some [some 1, some 0, some 1, some 0]) i = 0) =
      ((sortedRows (some [some 1, some 0, some 1, some 0])
          (some [3, 1, 2, 0])).filter
        (fun i => gKey (some [some 1, some 0, some 1, some 0]) i = 0)).take 1 := by
  have h := c4_limit_caps_groups [some 1, some 0, some 1, some 0]
    (some [3, 1, 2, 0]) none 1 0
  exact ⟨h.1, h.2.2 rfl⟩


/-- Sanity check: the spec's end-to-end alignment example.  Anchors
`[1, 5, 10]`, spikes `[0.5, 1.2, 5.1, 5.3, 9.9]`, `before = after = 0.5`. -/
example :
    align_by_time_intervals [[1/2, 6/5, 51/10, 53/10, 99/10]] 0
      ⟨[("start_time", [1, 5, 10])]⟩ "start_time" (1/2) (1/2) [0, 1, 2] =
    [[-(1/2), 1/5], [1/10, 3/10], [-(1/10)]] := by
  norm_num [align_by_time_intervals, getCol, lookupCol, List.filter]

/-- C2.  `align_by_time_intervals` returns exactly one array per row of
`row_order`, in sequence, and (for `before, after ≥ 0`) every returned
timestamp lies in `[-before, after]`; a row with no spikes in its window
yields an empty array, not an error. -/
theorem c2_align_length_and_bounds (units : List (List ℚ)) (unit_index : ℕ)
    (intervals_table : ColTable) (start_label : String) (before after : ℚ)
    (row_order : List ℕ) (hb : 0 ≤ before) (ha : 0 ≤ after) :
    (align_by_time_intervals units unit_index intervals_table start_label
        before after row_order).length = row_order.length ∧
    ∀ arr ∈ align_by_time_intervals units unit_index intervals_table
        start_label before after row_order,
      ∀ t ∈ arr, -before ≤ t ∧ t ≤ after := by
  constructor
  · exact List.length_map _ _
  · intro arr harr t ht
    obtain ⟨row, _, hrow⟩ := List.mem_map.1 harr
    subst hrow
    obtain ⟨s, hs, hst⟩ := List.mem_map.1 ht
    have hsf := List.mem_filter.1 hs
    have hbounds := of_decide_eq_true hsf.2
    subst hst
    constructor
    · linarith [hbounds.1]
    · linarith [hbounds.2]

/-- Closed instance of C2 at a concrete input (the spec's example). -/
theorem c2_align_length_and_bounds_witness :
    (align_by_time_intervals [[1/2, 6/5, 51/10, 53/10, 99/10]] 0
        ⟨[("start_time", [1, 5, 10])]⟩ "start_time" (1/2) (1/2)
        [0, 1, 2]).length = 3 ∧
    ∀ arr ∈ align_by_time_intervals [[1/2, 6/5, 51/10, 53/10, 99/10]] 0
        ⟨[("start_time", [1, 5, 10])]⟩ "start_time" (1/2) (1/2) [0, 1, 2],
      ∀ t ∈ arr, -(1/2) ≤ t ∧ t ≤ 1/2 :=
  c2_align_length_and_bounds [[1/2, 6/5, 51/10, 53/10, 99/10]] 0
    ⟨[("start_time", [1, 5, 10])]⟩ "start_time" (1/2) (1/2) [0, 1, 2]
    (by norm_num) (by norm_num)


/-- C3.  With neither a group key nor an order key requested, the computed
row order is the identity sequence over the window — `np.arange` over
`units_window` in `show_session_raster`, `np.arange(len(trials_select))` in
`trials_psth` — and `group_inds` and `labels` are both `None`. -/
theorem c3_identity_order_when_no_keys (units : UnitsTable)
    (tw : Option (ℚ × ℚ)) (us : Option (List ℕ)) (uwin : Option (ℕ × ℕ))
    (lim : Option ℕ) (el : Option ElectrodesTable) (index : ℕ)
    (trials : ColTable) (start_label : String) (before after sigma : ℚ)
    (tsel : List ℕ) :
    (∃ fig, show_session_raster units tw us uwin none none lim el =
        Except.ok fig ∧
      fig.order = List.range' (uwin.getD (0, units.spike_times.length)).1
        ((uwin.getD (0, units.spike_times.length)).2 -
          (uwin.getD (0, units.spike_times.length)).1) ∧
      fig.group_inds = none ∧ fig.labels = none) ∧
    ((trials_psth units index trials start_label before after none none tsel
        sigma).order = List.range tsel.length ∧
      (trials_psth units index trials start_label before after none none tsel
        sigma).group_inds = none ∧
      (trials_psth units index trials start_label before after none none tsel
        sigma).labels = none) :=
  ⟨⟨_, rfl, rfl, rfl, rfl⟩, rfl, rfl, rfl⟩

/-- C5.  In the PSTH pipeline, the data handed to the smoothing stage is
the alignment with the window inflated by `4 * sigma` on each side, the
raster stage's data is the alignment with the uninflated window, and both
displayed x windows are `[-before, after]` (the smoothed curve is cropped
back to the uninflated window). -/
theorem c5_smoothing_window_inflated (units : UnitsTable) (index : ℕ)
    (trials : ColTable) (start_label : String) (before after : ℚ)
    (order_by group_by : Option String) (tsel : List ℕ) (sigma : ℚ) :
    (trials_psth units index trials start_label before after order_by
        group_by tsel sigma).smoothed_input =
      align_by_time_intervals units.spike_times index trials start_label
        (before + sigma * 4) (after + sigma * 4)
        (trials_psth units index trials start_label before after order_by
          group_by tsel sigma).order ∧
    (trials_psth units index trials start_label before after order_by
        group_by tsel sigma).raster_data =
      align_by_time_intervals units.spike_times index trials start_label
        before after
        (trials_psth units index trials start_label before after order_by
          group_by tsel sigma).order ∧
    (trials_psth units index trials start_label before after order_by
        group_by tsel sigma).smoothed_xlim = (-before, after) ∧
    (trials_psth units index trials start_label before after order_by
        group_by tsel sigma).raster_window = (-before, after) :=
  ⟨rfl, rfl, rfl, rfl⟩

/-- C7.  With an empty spike-time sequence, `compute_smoothed_firing_rate`
returns an all-zero array whose length equals `len(eval_points)`. -/
theorem c7_empty_spikes_zero_curve (eval_points : List ℚ) (sigma : ℚ) :
    compute_smoothed_firing_rate [] eval_points sigma =
      List.replicate eval_points.length 0 ∧
    (compute_smoothed_firing_rate [] eval_points sigma).length =
      eval_points.length := by
  constructor
  · rw [List.eq_replicate_iff]
    refine ⟨List.length_map _ _, ?_⟩
    intro x hx
    simp only [compute_smoothed_firing_rate, List.map_nil, List.mem_map] at hx
    obtain ⟨t, _, ht⟩ := hx
    simpa using ht.symm
  · exact List.length_map _ _

/-- C9.  `raster_grid` with a missing (`None`) trials table signals an
error immediately and produces no figure. -/
theorem c9_raster_grid_requires_trials (units : UnitsTable) (index : ℕ)
    (before after : ℚ) (rows_label cols_label : Option String)
    (align_by : String) :
    raster_grid units none index before after rows_label cols_label
      align_by = Except.error "trials must exist (trials cannot be None)" :=
  rfl

/-- C10.  In `show_session_raster`, a `group_by` naming no column of
`units` with no electrode column to fall back on leaves `group_vals`
unassigned, and an `order_by` with no electrode column leaves `order_vals`
unassigned (there is no units-column branch for `order_by`); either way the
call fails before producing any figure. -/
theorem c10_unassigned_vals_error (units : UnitsTable)
    (tw : Option (ℚ × ℚ)) (us : Option (List ℕ)) (uwin : Option (ℕ × ℕ))
    (group_by order_by : Option String) (lim : Option ℕ)
    (electrodes : Option ElectrodesTable) :
    (∀ g, group_by = some g → hasCol ⟨units.cols⟩ g = false →
      (∀ el, electrodes = some el → hasCol ⟨el.cols⟩ g = false) →
      show_session_raster units tw us uwin group_by order_by lim electrodes =
        Except.error "local variable referenced before assignment") ∧
    (∀ o, order_by = some o →
      (∀ el, electrodes = some el → hasCol ⟨el.cols⟩ o = false) →
      show_session_raster units tw us uwin group_by order_by lim electrodes =
        Except.error "local variable referenced before assignment") := by
  constructor
  · intro g hg hcol hel
    subst hg
    cases electrodes with
    | none => simp [show_session_raster, hcol]
    | some el => simp [show_session_raster, hcol, hel el rfl]
  · intro o ho hel
    subst ho
    cases electrodes with
    | none =>
        cases group_by <;> simp [show_session_raster]
    | some el =>
        cases group_by <;> simp [show_session_raster, hel el rfl]

/-- Closed instance of C10 at concrete inputs: a `group_by` absent from a
column-less units table with no electrodes, and likewise an `order_by`. -/
theorem c10_unassigned_vals_error_witness :
    show_session_raster ⟨[], []⟩ none none none (some "region") none none
        none = Except.error "local variable referenced before assignment" ∧
    show_session_raster ⟨[], []⟩ none none none none (some "depth") none
        none = Except.error "local variable referenced before assignment" :=
  ⟨(c10_unassigned_vals_error ⟨[], []⟩ none none none (some "region") none
      none none).1 "region" rfl rfl (fun el h => nomatch h),
   (c10_unassigned_vals_error ⟨[], []⟩ none none none none (some "depth")
      none none).2 "depth" rfl (fun el h => nomatch h)⟩

theorem uniqueInOrder_subset {x : ℚ} : ∀ {l : List ℚ},
    x ∈ uniqueInOrder l → x ∈ l
  | [], hx => by simp [uniqueInOrder] at hx
  | a :: l, hx => by
      unfold uniqueInOrder at hx
      rcases List.mem_cons.1 hx with h | h
      · exact h ▸ List.mem_cons_self _ _
      · exact List.mem_cons_of_mem _
          (uniqueInOrder_subset (List.mem_filter.1 h).1)

theorem uniqueInOrder_nodup : ∀ l : List ℚ, (uniqueInOrder l).Nodup
  | [] => List.nodup_nil
  | a :: l => by
      unfold uniqueInOrder
      refine List.nodup_cons.2 ⟨?_, (uniqueInOrder_nodup l).filter _⟩
      intro hmem
      have := (List.mem_filter.1 hmem).2
      simp at this

theorem length_uniqueInOrder_pair {a b : ℚ} {l : List ℚ} (hab : a ≠ b)
    (hsub : ∀ x ∈ l, x = a ∨ x = b) (ha : a ∈ l) (hb : b ∈ l) :
    (uniqueInOrder l).length = 2 := by
  have hnd : (uniqueInOrder l).Nodup := uniqueInOrder_nodup l
  have hset : (uniqueInOrder l).toFinset = {a, b} := by
    ext x
    simp only [List.mem_toFinset, Finset.mem_insert, Finset.mem_singleton]
    constructor
    · exact fun h => hsub x (uniqueInOrder_subset h)
    · rintro (rfl | rfl)
      · exact mem_uniqueInOrder ha
      · exact mem_uniqueInOrder hb
  have hcard := List.toFinset_card_of_nodup hnd
  rw [hset] at hcard
  rw [← hcard, Finset.card_insert_of_not_mem (by simpa using hab),
    Finset.card_singleton]

/-- The distinct count of a column whose values all equal `some 0` or
`some 1`, with both occurring, is exactly 2. -/
theorem distinctCount_boolean (c : TableColumn)
    (hbool : ∀ v ∈ c.data, v = some 0 ∨ v = some 1)
    (h0 : some (0 : ℚ) ∈ c.data) (h1 : some (1 : ℚ) ∈ c.data) :
    distinctCount c.data = 2 := by
  unfold distinctCount
  refine length_uniqueInOrder_pair (a := 0) (b := 1) (by norm_num) ?_ ?_ ?_
  · intro x hx
    obtain ⟨v, hv, hvx⟩ := List.mem_filterMap.1 hx
    simp only [id_eq] at hvx
    subst hvx
    rcases hbool _ hv with h | h
    · left; exact Option.some_inj.1 h
    · right; exact Option.some_inj.1 h
  · exact List.mem_filterMap.2 ⟨some 0, h0, rfl⟩
  · exact List.mem_filterMap.2 ⟨some 1, h1, rfl⟩

/-- C8.  `infer_categorical_columns` never returns a column whose
distinct-value count is 1 or equals the row count; in particular a 9-row
table of two boolean (0/1) valued columns, each with both values occurring
(neither constant nor all-unique), is returned whole. -/
theorem c8_infer_excludes_non_discriminating :
    (∀ (table : List TableColumn) (n : ℕ),
      ∀ c ∈ infer_categorical_columns table n,
        distinctCount c.data ≠ 1 ∧ distinctCount c.data ≠ n) ∧
    (∀ c1 c2 : TableColumn, c1.nested = false → c2.nested = false →
      c1.name ≠ "id" → c2.name ≠ "id" →
      c1.data.length = 9 → c2.data.length = 9 →
      (∀ v ∈ c1.data, v = some 0 ∨ v = some 1) →
      (∀ v ∈ c2.data, v = some 0 ∨ v = some 1) →
      some 0 ∈ c1.data → some 1 ∈ c1.data →
      some 0 ∈ c2.data → some 1 ∈ c2.data →
      infer_categorical_columns [c1, c2] 9 = [c1, c2]) := by
  constructor
  · intro table n c hc
    have hp := (List.mem_filter.1 hc).2
    simp only [Bool.and_eq_true, decide_eq_true_eq] at hp
    exact ⟨hp.1.2, hp.2⟩
  · intro c1 c2 hn1 hn2 hid1 hid2 _ _ hb1 hb2 h01 h11 h02 h12
    have d1 := distinctCount_boolean c1 hb1 h01 h11
    have d2 := distinctCount_boolean c2 hb2 h02 h12
    unfold infer_categorical_columns
    rw [List.filter_cons, List.filter_cons, List.filter_nil]
    simp [hn1, hn2, hid1, hid2, d1, d2]

/-- Closed instance of C8: the repository test's shape — a 9-row table with
boolean columns `spikes` and `LFP`, both returned with their full data. -/
theorem c8_infer_excludes_non_discriminating_witness :
    (distinctCount [some (1:ℚ), some 0, some 1, some 1, some 0, some 0,
        some 1, some 0, some 1] ≠ 1 ∧
      distinctCount [some (1:ℚ), some 0, some 1, some 1, some 0, some 0,
        some 1, some 0, some 1] ≠ 9) ∧
    infer_categorical_columns
        [⟨"spikes", [some 1, some 0, some 1, some 1, some 0, some 0, some 1,
            some 0, some 1], false⟩,
         ⟨"LFP", [some 0, some 0, some 1, some 0, some 1, some 1, some 0,
            some 1, some 0], false⟩] 9 =
      [⟨"spikes", [some 1, some 0, some 1, some 1, some 0, some 0, some 1,
          some 0, some 1], false⟩,
       ⟨"LFP", [some 0, some 0, some 1, some 0, some 1, some 1, some 0,
          some 1, some 0], false⟩] := by
  constructor
  · exact c8_infer_excludes_non_discriminating.1
      [⟨"spikes", [some 1, some 0, some 1, some 1, some 0, some 0, some 1,
          some 0, some 1], false⟩,
       ⟨"LFP", [some 0, some 0, some 1, some 0, some 1, some 1, some 0,
          some 1, some 0], false⟩] 9
      ⟨"spikes", [some 1, some 0, some 1, some 1, some 0, some 0, some 1,
          some 0, some 1], false⟩ (by decide)
  · exact c8_infer_excludes_non_discriminating.2 _ _ rfl rfl (by decide)
      (by decide) (by decide) (by decide) (by decide) (by decide)
      (by decide) (by decide) (by decide) (by decide)

theorem zip_filter_snd {α : Type} (g : ℕ) (d : α) :
    ∀ (gi : List ℕ) (rows : List α), gi.length = rows.length →
      ((gi.zip rows).filter (fun p => p.1 = g)).map Prod.snd =
        ((List.range rows.length).filter (fun i => gi.getD i 0 = g)).map
          (fun i => rows.getD i d)
  | [], [], _ => by simp
  | [], r :: rows, h => by simp at h
  | a :: gi, [], h => by simp at h
  | a :: gi, r :: rows, h => by
      have h' : gi.length = rows.length := by simpa using h
      have IH := zip_filter_snd g d gi rows h'
      by_cases hag : a = g <;>
        simp [List.zip_cons_cons, List.filter_cons, List.range_succ_eq_map,
          List.filter_map, List.map_map, Function.comp_def,
          List.getD_cons_succ, List.getD_cons_zero, hag, IH]

theorem linspace_length (a b : ℚ) (n : ℕ) : (linspace a b n).length = n := by
  simp [linspace]

theorem linspace_getD (a b : ℚ) (n j : ℕ) (hj : j < n) :
    (linspace a b n).getD j 0 = a + j * (b - a) / ((n : ℚ) - 1) := by
  rw [List.getD_eq_getElem _ _ (by simpa [linspace_length] using hj)]
  simp [linspace]

theorem linspace_first (a b : ℚ) (n : ℕ) (hn : 0 < n) :
    (linspace a b n).getD 0 0 = a := by
  rw [linspace_getD a b n 0 hn]
  simp

theorem linspace_last (a b : ℚ) (n : ℕ) (hn : 2 ≤ n) :
    (linspace a b n).getD (n - 1) 0 = b := by
  rw [linspace_getD a b n (n - 1) (by omega)]
  have hcast : ((n - 1 : ℕ) : ℚ) = (n : ℚ) - 1 := by
    have h1 : (1 : ℕ) ≤ n := by omega
    push_cast [h1]
    ring
  rw [hcast]
  have hne : (n : ℚ) - 1 ≠ 0 := by
    have h2 : (2 : ℚ) ≤ (n : ℚ) := by exact_mod_cast hn
    linarith
  field_simp

theorem colMean_length (rows : List (List ℝ)) (m : ℕ) :
    (colMean rows m).length = m := by
  simp [colMean]

theorem colSem_length (rows : List (List ℝ)) (m : ℕ) :
    (colSem rows m).length = m := by
  simp [colSem]

theorem colMean_getD (rows : List (List ℝ)) (m j : ℕ) (hj : j < m) :
    (colMean rows m).getD j 0 = listMean (rows.map (fun r => r.getD j 0)) := by
  rw [List.getD_eq_getElem _ _ (by simpa [colMean_length] using hj)]
  simp [colMean]

theorem colSem_getD (rows : List (List ℝ)) (m j : ℕ) (hj : j < m) :
    (colSem rows m).getD j 0 = semVal (rows.map (fun r => r.getD j 0)) := by
  rw [List.getD_eq_getElem _ _ (by simpa [colSem_length] using hj)]
  simp [colSem]

theorem zipWith_getD (f : ℝ → ℝ → ℝ) (a b : List ℝ) (j : ℕ)
    (hja : j < a.length) (hjb : j < b.length) :
    (List.zipWith f a b).getD j 0 = f (a.getD j 0) (b.getD j 0) := by
  rw [List.getD_eq_getElem _ _ (by simp [List.length_zipWith]; omega),
    List.getD_eq_getElem _ _ hja, List.getD_eq_getElem _ _ hjb]
  exact List.getElem_zipWith

/-- The mask selection `smoothed[group_inds == g]` picks exactly the
smoothed curves of the rows whose group index is `g`. -/
theorem selectRows_smoothed_eq (data : List (List ℚ)) (sigma : ℚ)
    (gi : List ℕ) (ntt g : ℕ) (hlen : gi.length = data.length) :
    selectRows gi (smoothedCurves data sigma ntt) g =
      groupCurves data sigma gi ntt g := by
  unfold selectRows smoothedCurves groupCurves
  rw [zip_filter_snd g ([] : List ℝ) gi _ (by simpa using hlen),
    List.length_map]
  refine List.map_congr_left ?_
  intro i hi
  have hilt : i < data.length := by
    have := (List.mem_filter.1 hi).1
    simpa using List.mem_range.1 this
  rw [List.getD_eq_getElem _ _ (by simpa using hilt), List.getElem_map,
    List.getD_eq_getElem _ _ hilt]

/-- C6.  For a non-empty aligned spike collection with group assignment
`group_inds`, the smoothing panel evaluates every curve on one shared grid
of `ntt` points spanning the min/max spike time over all rows, and each
group's plot is the pointwise mean of that group's smoothed curves with a
symmetric band at mean ∓ 2 standard errors of the mean. -/
theorem c6_group_mean_sem_band (data : List (List ℚ))
    (before after sigma : ℚ) (gi : List ℕ) (ntt g j : ℕ)
    (hlen : gi.length = data.length) (hne : data.flatten ≠ [])
    (hg : g < gi.dedup.length) (hj : j < ntt) (hntt : 2 ≤ ntt) :
    ∃ panel,
      show_psth_smoothed data before after (some gi) sigma ntt =
        some panel ∧
      panel.xlim = (-before, after) ∧
      panel.tt = linspace ((data.flatten.min?).getD 0)
        ((data.flatten.max?).getD 0) ntt ∧
      panel.tt.length = ntt ∧
      panel.tt.getD 0 0 = (data.flatten.min?).getD 0 ∧
      panel.tt.getD (ntt - 1) 0 = (data.flatten.max?).getD 0 ∧
      panel.stats.length = gi.dedup.length ∧
      (panel.stats.getD g ⟨[], [], []⟩).mean.getD j 0 =
        listMean ((groupCurves data sigma gi ntt g).map
          (fun r => r.getD j 0)) ∧
      (panel.stats.getD g ⟨[], [], []⟩).lower.getD j 0 =
        listMean ((groupCurves data sigma gi ntt g).map
            (fun r => r.getD j 0)) -
          2 * semVal ((groupCurves data sigma gi ntt g).map
            (fun r => r.getD j 0)) ∧
      (panel.stats.getD g ⟨[], [], []⟩).upper.getD j 0 =
        listMean ((groupCurves data sigma gi ntt g).map
            (fun r => r.getD j 0)) +
          2 * semVal ((groupCurves data sigma gi ntt g).map
            (fun r => r.getD j 0)) := by
  have hemp : data.flatten.isEmpty = false := by
    simpa [List.isEmpty_iff] using hne
  have hpanel : show_psth_smoothed data before after (some gi) sigma ntt =
      some
        { tt := linspace ((data.flatten.min?).getD 0)
            ((data.flatten.max?).getD 0) ntt
          stats := (List.range gi.dedup.length).map
            (psthStats data sigma gi ntt)
          xlim := (-before, after) } := by
    simp [show_psth_smoothed, hemp]
  have hstat : ((List.range gi.dedup.length).map
      (psthStats data sigma gi ntt)).getD g ⟨[], [], []⟩ =
      psthStats data sigma gi ntt g := by
    rw [List.getD_eq_getElem _ _ (by simpa using hg), List.getElem_map,
      List.getElem_range]
  have hsel := selectRows_smoothed_eq data sigma gi ntt g hlen
  refine ⟨_, hpanel, rfl, rfl, linspace_length _ _ _,
    linspace_first _ _ _ (by omega), linspace_last _ _ _ hntt,
    by simp, ?_, ?_, ?_⟩
  · rw [hstat]
    show (colMean (selectRows gi (smoothedCurves data sigma ntt) g)
      ntt).getD j 0 = _
    rw [colMean_getD _ _ _ hj, hsel]
  · rw [hstat]
    show (List.zipWith (fun mu er => mu - 2 * er)
      (colMean (selectRows gi (smoothedCurves data sigma ntt) g) ntt)
      (colSem (selectRows gi (smoothedCurves data sigma ntt) g) ntt)).getD
        j 0 = _
    rw [zipWith_getD _ _ _ _ (by rw [colMean_length]; exact hj)
      (by rw [colSem_length]; exact hj),
      colMean_getD _ _ _ hj, colSem_getD _ _ _ hj, hsel]
  · rw [hstat]
    show (List.zipWith (fun mu er => mu + 2 * er)
      (colMean (selectRows gi (smoothedCurves data sigma ntt) g) ntt)
      (colSem (selectRows gi (smoothedCurves data sigma ntt) g) ntt)).getD
        j 0 = _
    rw [zipWith_getD _ _ _ _ (by rw [colMean_length]; exact hj)
      (by rw [colSem_length]; exact hj),
      colMean_getD _ _ _ hj, colSem_getD _ _ _ hj, hsel]

/-- Closed instance of C6 at a concrete input. -/
theorem c6_group_mean_sem_band_witness :
    ∃ panel,
      show_psth_smoothed [[0], [1]] 1 2 (some [0, 0]) 1 2 = some panel ∧
      panel.xlim = (-1, 2) ∧
      panel.tt = linspace ((([[(0:ℚ)], [1]].flatten).min?).getD 0)
        ((([[(0:ℚ)], [1]].flatten).max?).getD 0) 2 ∧
      panel.tt.length = 2 ∧
      panel.tt.getD 0 0 = (([[(0:ℚ)], [1]].flatten).min?).getD 0 ∧
      panel.tt.getD (2 - 1) 0 = (([[(0:ℚ)], [1]].flatten).max?).getD 0 ∧
      panel.stats.length = ([0, 0] : List ℕ).dedup.length ∧
      (panel.stats.getD 0 ⟨[], [], []⟩).mean.getD 0 0 =
        listMean ((groupCurves [[0], [1]] 1 [0, 0] 2 0).map
          (fun r => r.getD 0 0)) ∧
      (panel.stats.getD 0 ⟨[], [], []⟩).lower.getD 0 0 =
        listMean ((groupCurves [[0], [1]] 1 [0, 0] 2 0).map
            (fun r => r.getD 0 0)) -
          2 * semVal ((groupCurves [[0], [1]] 1 [0, 0] 2 0).map
            (fun r => r.getD 0 0)) ∧
      (panel.stats.getD 0 ⟨[], [], []⟩).upper.getD 0 0 =
        listMean ((groupCurves [[0], [1]] 1 [0, 0] 2 0).map
            (fun r => r.getD 0 0)) +
          2 * semVal ((groupCurves [[0], [1]] 1 [0, 0] 2 0).map
            (fun r => r.getD 0 0)) :=
  c6_group_mean_sem_band [[0], [1]] 1 2 1 [0, 0] 2 0 0 (by decide)
    (by decide) (by decide) (by decide) (by decide)

end Nwb
